import Mathlib

/-!
# Verification of `spsc-ringbuffer` (src/src/lib.rs)

Shallow embedding of the SPSC ring buffer from `src/src/lib.rs`.  The Rust
structure `SpscRingbuffer<T>` holds a backing `Vec<T>`, two cursors
(`write_index`, `read_index`), a boundary tag (`limit_kind`, strategy A of
the spec) and the logical `size`.  The embedding is a pure state-passing
translation: each method that mutates `&self` becomes a function returning
the result together with the successor state.  Atomic loads/stores and their
memory orderings collapse to plain field reads/writes in this sequential
model; `T: Copy + Default` becomes `[Inhabited T]`.
-/

/-- `LimitKind` from lib.rs lines 30-36: the boundary tag resolving the
empty-vs-full ambiguity when the cursors coincide. -/
inductive LimitKind where
  | Empty : LimitKind
  | Full : LimitKind
deriving DecidableEq, Repr

/-- `LoadErrorKind` (lib.rs lines 20-23): the error returned by `pop`. -/
inductive LoadErrorKind where
  | Empty : LoadErrorKind
deriving DecidableEq, Repr

/-- `StoreErrorKind` (lib.rs lines 25-28): the error returned by `push`. -/
inductive StoreErrorKind where
  | Full : StoreErrorKind
deriving DecidableEq, Repr

/-- The state of `SpscRingbuffer<T>` (lib.rs lines 38-46): backing buffer,
write cursor, read cursor, boundary tag, logical size. -/
structure SpscRingbuffer (T : Type) where
  buffer : List T
  write_index : Nat
  read_index : Nat
  limit_kind : LimitKind
  size : Nat
deriving DecidableEq, Repr

namespace SpscRingbuffer

variable {T : Type}

/-- `SpscRingbuffer::new` (lib.rs lines 49-57): `size` default-valued
elements, both cursors zero, tag `Empty`. -/
def new (T : Type) [Inhabited T] (size : Nat) : SpscRingbuffer T :=
  { buffer := List.replicate size default
    write_index := 0
    read_index := 0
    limit_kind := LimitKind.Empty
    size := size }

/-- `SpscRingbuffer::read_available` (lib.rs lines 73-87). -/
def read_available (b : SpscRingbuffer T) : Nat :=
  if b.write_index = b.read_index then
    match b.limit_kind with
    | LimitKind.Empty => 0
    | LimitKind.Full => b.size
  else if b.write_index > b.read_index then
    b.write_index - b.read_index
  else
    (b.size - b.read_index) + b.write_index

/-- `SpscRingbuffer::write_available` (lib.rs lines 89-103). -/
def write_available (b : SpscRingbuffer T) : Nat :=
  if b.write_index = b.read_index then
    match b.limit_kind with
    | LimitKind.Empty => b.size
    | LimitKind.Full => 0
  else if b.write_index < b.read_index then
    b.read_index - b.write_index
  else
    (b.size - b.write_index) + b.read_index

/-- `SpscRingbuffer::is_empty` (lib.rs lines 59-61). -/
def is_empty (b : SpscRingbuffer T) : Bool :=
  b.read_available == 0

/-- `SpscRingbuffer::is_full` (lib.rs lines 63-65). -/
def is_full (b : SpscRingbuffer T) : Bool :=
  b.write_available == 0

/-- `SpscRingbuffer::clear` (lib.rs lines 67-71): both cursors to 0, tag to
`Empty`. -/
def clear (b : SpscRingbuffer T) : SpscRingbuffer T :=
  { b with write_index := 0, read_index := 0, limit_kind := LimitKind.Empty }

/-- `SpscRingbuffer::pop` (lib.rs lines 105-124).  Returns the Rust result
paired with the successor state (`&self` after the call).  The unchecked
slot read `get_unchecked(read_index)` is modelled by `List.getD` with the
default element; on every reachable state the index is in bounds, so the
default is never produced.  The guard keeps the `% size` computation (which
would panic in Rust at `size == 0`) behind the `Empty` early return. -/
def pop [Inhabited T] (b : SpscRingbuffer T) :
    Except LoadErrorKind T × SpscRingbuffer T :=
  if b.is_empty then
    (Except.error LoadErrorKind.Empty, b)
  else
    let read_index := b.read_index
    let write_index := b.write_index
    let item := b.buffer.getD read_index default
    let next_read_index := (read_index + 1) % b.size
    let limit_kind :=
      if next_read_index = write_index then LimitKind.Empty else b.limit_kind
    (Except.ok item,
      { b with read_index := next_read_index, limit_kind := limit_kind })

/-- `SpscRingbuffer::push` (lib.rs lines 126-147).  Returns the Rust result
paired with the successor state.  The unchecked slot write
`get_unchecked_mut(write_index) = item` is modelled by `List.set`; on every
reachable state the index is in bounds.  The guard keeps the `% size`
computation behind the `Full` early return. -/
def push (b : SpscRingbuffer T) (item : T) :
    Except StoreErrorKind Unit × SpscRingbuffer T :=
  if b.is_full then
    (Except.error StoreErrorKind.Full, b)
  else
    let write_index := b.write_index
    let read_index := b.read_index
    let buffer := b.buffer.set write_index item
    let next_write_index := (write_index + 1) % b.size
    let limit_kind :=
      if next_write_index = read_index then LimitKind.Full else b.limit_kind
    (Except.ok (),
      { b with buffer := buffer, write_index := next_write_index,
               limit_kind := limit_kind })

/-- States reachable from `new capacity` by any sequence of `push`, `pop`
and `clear` calls (the full sequential API of lib.rs). -/
inductive Reachable [Inhabited T] (c : Nat) : SpscRingbuffer T → Prop where
  | init : Reachable c (new T c)
  | push_step {b : SpscRingbuffer T} (x : T) :
      Reachable c b → Reachable c (b.push x).2
  | pop_step {b : SpscRingbuffer T} :
      Reachable c b → Reachable c b.pop.2
  | clear_step {b : SpscRingbuffer T} :
      Reachable c b → Reachable c b.clear

/-- The structural invariant maintained by the API: the backing buffer has
exactly `size` elements and both cursors are reduced modulo `size`
(degenerating to `0` when `size = 0`, where no modulus exists). -/
def Inv (b : SpscRingbuffer T) : Prop :=
  b.buffer.length = b.size ∧
    (if b.size = 0 then b.write_index = 0 ∧ b.read_index = 0
     else b.write_index < b.size ∧ b.read_index < b.size)

end SpscRingbuffer

namespace SpscRingbuffer

variable {T : Type}

theorem write_available_le (b : SpscRingbuffer T) (h : b.Inv) :
    b.write_available ≤ b.size := by
  obtain ⟨-, hc⟩ := h
  unfold write_available
  split
  · cases b.limit_kind <;> simp
  · split at hc <;> split <;> omega

theorem read_available_le (b : SpscRingbuffer T) (h : b.Inv) :
    b.read_available ≤ b.size := by
  obtain ⟨-, hc⟩ := h
  unfold read_available
  split
  · cases b.limit_kind <;> simp
  · split at hc <;> split <;> omega

/-- Occupancy and free space are complementary. -/
theorem read_add_write_available (b : SpscRingbuffer T) (h : b.Inv) :
    b.read_available + b.write_available = b.size := by
  obtain ⟨-, hc⟩ := h
  unfold read_available write_available
  split
  · cases b.limit_kind <;> simp
  · split at hc <;> split <;> split <;> omega

theorem inv_new [Inhabited T] (c : Nat) : (new T c).Inv := by
  unfold Inv new
  by_cases hc : c = 0 <;> simp [hc] <;> omega

theorem size_push (b : SpscRingbuffer T) (x : T) : (b.push x).2.size = b.size := by
  unfold push
  split <;> rfl

theorem size_pop [Inhabited T] (b : SpscRingbuffer T) : b.pop.2.size = b.size := by
  unfold pop
  split <;> rfl

theorem size_clear (b : SpscRingbuffer T) : b.clear.size = b.size := rfl

/-- A buffer with positive free space has a positive modulus. -/
theorem size_pos_of_write_available (b : SpscRingbuffer T) (h : b.Inv)
    (hw : 0 < b.write_available) : 0 < b.size :=
  lt_of_lt_of_le hw (write_available_le b h)

/-- A buffer with positive occupancy has a positive modulus. -/
theorem size_pos_of_read_available (b : SpscRingbuffer T) (h : b.Inv)
    (hr : 0 < b.read_available) : 0 < b.size :=
  lt_of_lt_of_le hr (read_available_le b h)

theorem inv_push (b : SpscRingbuffer T) (x : T) (h : b.Inv) :
    (b.push x).2.Inv := by
  unfold push
  split
  · exact h
  · rename_i hfull
    have hw : 0 < b.write_available := by
      by_contra hc
      exact hfull (by simp [is_full]; omega)
    have hs : 0 < b.size := size_pos_of_write_available b h hw
    obtain ⟨hlen, hcur⟩ := h
    refine ⟨by simpa using hlen, ?_⟩
    simp only
    rw [if_neg (by omega)]
    rw [if_neg (by omega)] at hcur
    exact ⟨Nat.mod_lt _ hs, hcur.2⟩

theorem inv_pop [Inhabited T] (b : SpscRingbuffer T) (h : b.Inv) :
    b.pop.2.Inv := by
  unfold pop
  split
  · exact h
  · rename_i hemp
    have hr : 0 < b.read_available := by
      by_contra hc
      exact hemp (by simp [is_empty]; omega)
    have hs : 0 < b.size := size_pos_of_read_available b h hr
    obtain ⟨hlen, hcur⟩ := h
    refine ⟨hlen, ?_⟩
    simp only
    rw [if_neg (by omega)]
    rw [if_neg (by omega)] at hcur
    exact ⟨hcur.1, Nat.mod_lt _ hs⟩

theorem inv_clear (b : SpscRingbuffer T) (h : b.Inv) : b.clear.Inv := by
  obtain ⟨hlen, -⟩ := h
  unfold Inv clear
  by_cases hc : b.size = 0 <;> simp [hc, hlen] <;> omega

theorem reachable_inv [Inhabited T] {c : Nat} {b : SpscRingbuffer T}
    (h : Reachable c b) : b.Inv := by
  induction h with
  | init => exact inv_new c
  | push_step x _ ih => exact inv_push _ x ih
  | pop_step _ ih => exact inv_pop _ ih
  | clear_step _ ih => exact inv_clear _ ih

theorem reachable_size [Inhabited T] {c : Nat} {b : SpscRingbuffer T}
    (h : Reachable c b) : b.size = c := by
  induction h with
  | init => rfl
  | push_step x _ ih => rw [size_push]; exact ih
  | pop_step _ ih => rw [size_pop]; exact ih
  | clear_step _ ih => rw [size_clear]; exact ih

/-- The abstract queue a buffer represents: the `read_available` elements
starting at `read_index`, in pop order. -/
def contents [Inhabited T] (b : SpscRingbuffer T) : List T :=
  (List.range b.read_available).map
    (fun i => b.buffer.getD ((b.read_index + i) % b.size) default)

theorem length_contents [Inhabited T] (b : SpscRingbuffer T) :
    b.contents.length = b.read_available := by
  simp [contents]

theorem mod_eq_sub_of_lt_two {a s : Nat} (h1 : s ≤ a) (h2 : a < s + s) :
    a % s = a - s := by
  rw [Nat.mod_eq_sub_mod h1]
  exact Nat.mod_eq_of_lt (by omega)

theorem read_available_tag_empty (b : SpscRingbuffer T)
    (hw : b.write_index = b.read_index) (hl : b.limit_kind = LimitKind.Empty) :
    b.read_available = 0 := by
  simp [read_available, hw, hl]

theorem read_available_tag_full (b : SpscRingbuffer T)
    (hw : b.write_index = b.read_index) (hl : b.limit_kind = LimitKind.Full) :
    b.read_available = b.size := by
  simp [read_available, hw, hl]

/-- The write cursor sits `read_available` slots (mod `size`) after the read
cursor. -/
theorem write_index_eq (b : SpscRingbuffer T) (h : b.Inv) :
    b.write_index = (b.read_index + b.read_available) % b.size := by
  obtain ⟨-, hcur⟩ := h
  by_cases hs : b.size = 0
  · rw [if_pos hs] at hcur
    obtain ⟨hw0, hr0⟩ := hcur
    rcases hlim : b.limit_kind
    · rw [read_available_tag_empty b (by omega) hlim, hw0, hr0, hs]
    · rw [read_available_tag_full b (by omega) hlim, hw0, hr0, hs]
  · rw [if_neg hs] at hcur
    rcases Nat.lt_trichotomy b.write_index b.read_index with hw | hw | hw
    · unfold read_available
      rw [if_neg (by omega), if_neg (by omega)]
      rw [show b.read_index + ((b.size - b.read_index) + b.write_index) =
        b.size + b.write_index by omega]
      rw [Nat.add_mod_left, Nat.mod_eq_of_lt (by omega)]
    · rcases hlim : b.limit_kind
      · rw [read_available_tag_empty b hw hlim, Nat.add_zero,
          Nat.mod_eq_of_lt (by omega)]
        exact hw
      · rw [read_available_tag_full b hw hlim]
        rw [show b.read_index + b.size = b.size + b.read_index by omega]
        rw [Nat.add_mod_left, Nat.mod_eq_of_lt (by omega)]
        exact hw
    · unfold read_available
      rw [if_neg (by omega), if_pos (by omega)]
      rw [show b.read_index + (b.write_index - b.read_index) = b.write_index
        by omega]
      rw [Nat.mod_eq_of_lt (by omega)]

/-- Shifting by the read cursor and reducing mod `size` is injective below
`size`. -/
theorem mod_shift_inj {s r i n : Nat} (hi : i < s) (hn : n < s)
    (h : (r + i) % s = (r + n) % s) : i = n := by
  have h2 : i % s = n % s := Nat.ModEq.add_left_cancel' r h
  rwa [Nat.mod_eq_of_lt hi, Nat.mod_eq_of_lt hn] at h2

/-- When the buffer is not full, no occupied slot aliases the write cursor's
slot. -/
theorem occupied_ne_write_index (b : SpscRingbuffer T) (h : b.Inv)
    (hlt : b.read_available < b.size) :
    ∀ i < b.read_available, (b.read_index + i) % b.size ≠ b.write_index := by
  intro i hi heq
  rw [write_index_eq b h] at heq
  have := mod_shift_inj (by omega) hlt heq
  omega

/-- Reconstruction lemma: a buffer whose write cursor is `m ≤ size` slots
(mod `size`) past its read cursor, with a tag consistent at the boundary,
has occupancy exactly `m`. -/
theorem read_available_of_offset (b : SpscRingbuffer T) (m : Nat)
    (hs : 0 < b.size) (hr : b.read_index < b.size) (hm : m ≤ b.size)
    (hw : b.write_index = (b.read_index + m) % b.size)
    (h0 : m = 0 → b.limit_kind = LimitKind.Empty)
    (hfull : m = b.size → b.limit_kind = LimitKind.Full) :
    b.read_available = m := by
  rcases Nat.lt_or_ge (b.read_index + m) b.size with hlt | hge
  · rw [Nat.mod_eq_of_lt hlt] at hw
    by_cases hm0 : m = 0
    · rw [read_available_tag_empty b (by omega) (h0 hm0)]
      omega
    · unfold read_available
      rw [if_neg (by omega), if_pos (by omega)]
      omega
  · rw [mod_eq_sub_of_lt_two hge (by omega)] at hw
    by_cases hms : m = b.size
    · rw [read_available_tag_full b (by omega) (hfull hms)]
      omega
    · unfold read_available
      rw [if_neg (by omega), if_neg (by omega)]
      omega

/-- Full functional characterisation of a successful `push`: the result is
`Ok(())`, occupancy grows by one, the abstract queue gains `item` at the
back, the read cursor is untouched, the storage changes only at the old
write cursor's slot, and the write cursor advances by one mod `size`. -/
theorem push_spec [Inhabited T] (b : SpscRingbuffer T) (x : T) (hinv : b.Inv)
    (h : 0 < b.write_available) :
    (b.push x).1 = Except.ok () ∧
      (b.push x).2.read_available = b.read_available + 1 ∧
      (b.push x).2.contents = b.contents ++ [x] ∧
      (b.push x).2.read_index = b.read_index ∧
      (b.push x).2.buffer = b.buffer.set b.write_index x ∧
      (b.push x).2.write_index = (b.write_index + 1) % b.size := by
  have hs : 0 < b.size := size_pos_of_write_available b hinv h
  have hsum := read_add_write_available b hinv
  have hn : b.read_available < b.size := by omega
  have hwix := write_index_eq b hinv
  obtain ⟨hlen, hcur⟩ := hinv
  rw [if_neg (by omega)] at hcur
  have hinv' : b.Inv := ⟨hlen, by rw [if_neg (by omega)]; exact hcur⟩
  have hnotfull : b.is_full = false := by
    simp only [is_full, beq_eq_false_iff_ne, ne_eq]
    omega
  have hstep : b.push x =
      (Except.ok (),
        { b with buffer := b.buffer.set b.write_index x,
                 write_index := (b.write_index + 1) % b.size,
                 limit_kind :=
                   if (b.write_index + 1) % b.size = b.read_index then
                     LimitKind.Full
                   else b.limit_kind }) := by
    unfold push
    rw [hnotfull]
    rfl
  have h1 : (b.push x).1 = Except.ok () := by rw [hstep]
  have h2r : (b.push x).2.read_index = b.read_index := by rw [hstep]
  have h2s : (b.push x).2.size = b.size := by rw [hstep]
  have h2buf : (b.push x).2.buffer = b.buffer.set b.write_index x := by
    rw [hstep]
  have h2w : (b.push x).2.write_index = (b.write_index + 1) % b.size := by
    rw [hstep]
  have h2lim : (b.push x).2.limit_kind =
      (if (b.write_index + 1) % b.size = b.read_index then LimitKind.Full
       else b.limit_kind) := by
    rw [hstep]
  have hwmod : (b.write_index + 1) % b.size =
      (b.read_index + (b.read_available + 1)) % b.size := by
    conv_lhs => rw [hwix]
    rw [Nat.mod_add_mod, Nat.add_assoc]
  have hra : (b.push x).2.read_available = b.read_available + 1 := by
    apply read_available_of_offset _ (b.read_available + 1)
    · rw [h2s]; omega
    · rw [h2r, h2s]; omega
    · rw [h2s]; omega
    · rw [h2w, h2r, h2s]
      exact hwmod
    · omega
    · rw [h2s, h2lim]
      intro hfull
      rw [if_pos]
      rw [hwmod, hfull]
      rw [show b.read_index + b.size = b.size + b.read_index by omega]
      rw [Nat.add_mod_left]
      exact Nat.mod_eq_of_lt hcur.2
  refine ⟨h1, hra, ?_, h2r, h2buf, h2w⟩
  unfold contents
  rw [hra, h2r, h2buf, h2s]
  rw [List.range_succ, List.map_append, List.map_cons, List.map_nil]
  congr 1
  · apply List.map_congr_left
    intro i hi
    simp only [List.mem_range] at hi
    have hne := occupied_ne_write_index b hinv' hn i hi
    simp only [List.getD_eq_getElem?_getD]
    rw [List.getElem?_set_ne (fun hx => hne hx.symm)]
  · rw [show (b.read_index + b.read_available) % b.size = b.write_index from
      hwix.symm]
    simp only [List.getD_eq_getElem?_getD]
    rw [List.getElem?_set_self (by omega)]
    rfl

/-- Full functional characterisation of a successful `pop`: the result is
`Ok` of the slot under the read cursor, which is the head of the abstract
queue; occupancy shrinks by one, the storage and write cursor are untouched,
and the read cursor advances by one mod `size`. -/
theorem pop_spec [Inhabited T] (b : SpscRingbuffer T) (hinv : b.Inv)
    (h : 0 < b.read_available) :
    (b.pop).1 = Except.ok (b.buffer.getD b.read_index default) ∧
      b.contents = b.buffer.getD b.read_index default :: (b.pop).2.contents ∧
      (b.pop).2.read_available = b.read_available - 1 ∧
      (b.pop).2.write_index = b.write_index ∧
      (b.pop).2.buffer = b.buffer ∧
      (b.pop).2.read_index = (b.read_index + 1) % b.size := by
  have hs : 0 < b.size := size_pos_of_read_available b hinv h
  have hle := read_available_le b hinv
  have hwix := write_index_eq b hinv
  obtain ⟨hlen, hcur⟩ := hinv
  rw [if_neg (by omega)] at hcur
  have hnotemp : b.is_empty = false := by
    simp only [is_empty, beq_eq_false_iff_ne, ne_eq]
    omega
  have hstep : b.pop =
      (Except.ok (b.buffer.getD b.read_index default),
        { b with read_index := (b.read_index + 1) % b.size,
                 limit_kind :=
                   if (b.read_index + 1) % b.size = b.write_index then
                     LimitKind.Empty
                   else b.limit_kind }) := by
    unfold pop
    rw [hnotemp]
    rfl
  have h1 : (b.pop).1 = Except.ok (b.buffer.getD b.read_index default) := by
    rw [hstep]
  have h2r : (b.pop).2.read_index = (b.read_index + 1) % b.size := by
    rw [hstep]
  have h2s : (b.pop).2.size = b.size := by rw [hstep]
  have h2buf : (b.pop).2.buffer = b.buffer := by rw [hstep]
  have h2w : (b.pop).2.write_index = b.write_index := by rw [hstep]
  have h2lim : (b.pop).2.limit_kind =
      (if (b.read_index + 1) % b.size = b.write_index then LimitKind.Empty
       else b.limit_kind) := by
    rw [hstep]
  have hwmod : b.write_index =
      ((b.read_index + 1) % b.size + (b.read_available - 1)) % b.size := by
    rw [Nat.mod_add_mod, hwix]
    congr 1
    omega
  have hra : (b.pop).2.read_available = b.read_available - 1 := by
    apply read_available_of_offset _ (b.read_available - 1)
    · rw [h2s]; omega
    · rw [h2r, h2s]
      exact Nat.mod_lt _ hs
    · rw [h2s]; omega
    · rw [h2w, h2r, h2s]
      exact hwmod
    · intro h0
      rw [h2lim, if_pos]
      rw [hwix]
      congr 1
      omega
    · rw [h2s]
      omega
  refine ⟨h1, ?_, hra, h2w, h2buf, h2r⟩
  unfold contents
  rw [hra, h2r, h2buf, h2s]
  obtain ⟨m, hm⟩ : ∃ m, b.read_available = m + 1 :=
    ⟨b.read_available - 1, by omega⟩
  rw [hm]
  rw [List.range_succ_eq_map, List.map_cons, List.map_map,
    Nat.add_sub_cancel]
  congr 1
  · rw [Nat.add_zero, Nat.mod_eq_of_lt hcur.2]
  · apply List.map_congr_left
    intro i hi
    simp only [Function.comp_apply, Nat.succ_eq_add_one]
    congr 1
    rw [Nat.mod_add_mod]
    congr 1
    omega
/-- A sequence of `push` calls, collecting each call's result. -/
def pushAll (b : SpscRingbuffer T) :
    List T → SpscRingbuffer T × List (Except StoreErrorKind Unit)
  | [] => (b, [])
  | x :: xs =>
    let p := b.push x
    let rest := pushAll p.2 xs
    (rest.1, p.1 :: rest.2)

theorem pushAll_spec [Inhabited T] :
    ∀ (xs : List T) (b : SpscRingbuffer T), b.Inv →
      xs.length ≤ b.write_available →
      (∀ res ∈ (b.pushAll xs).2, res = Except.ok ()) ∧
        (b.pushAll xs).1.read_available = b.read_available + xs.length ∧
        (b.pushAll xs).1.Inv ∧ (b.pushAll xs).1.size = b.size := by
  intro xs
  induction xs with
  | nil =>
    intro b hinv _
    exact ⟨by simp [pushAll], by simp [pushAll], hinv, rfl⟩
  | cons x xs ih =>
    intro b hinv hlen
    have hpos : 0 < b.write_available := by
      simp only [List.length_cons] at hlen
      omega
    obtain ⟨h1, hra, -, -, -, -⟩ := push_spec b x hinv hpos
    have hinv' : (b.push x).2.Inv := inv_push b x hinv
    have hsz : (b.push x).2.size = b.size := size_push b x
    have hsum := read_add_write_available b hinv
    have hsum' := read_add_write_available (b.push x).2 hinv'
    have hwa' : (b.push x).2.write_available = b.write_available - 1 := by
      omega
    have hlen' : xs.length ≤ (b.push x).2.write_available := by
      simp only [List.length_cons] at hlen
      omega
    obtain ⟨ihok, ihra, ihinv, ihsz⟩ := ih (b.push x).2 hinv' hlen'
    refine ⟨?_, ?_, ?_, ?_⟩
    · intro res hres
      simp only [pushAll, List.mem_cons] at hres
      rcases hres with hres | hres
      · rw [hres]; exact h1
      · exact ihok res hres
    · show (pushAll (b.push x).2 xs).1.read_available = _
      rw [ihra, hra]
      simp only [List.length_cons]
      omega
    · exact ihinv
    · show (pushAll (b.push x).2 xs).1.size = b.size
      rw [ihsz, hsz]

/-- One step of the producer/consumer interleaving: a `push` of a given
value, or a `pop`. -/
inductive Op (T : Type) where
  | push (x : T) : Op T
  | pop : Op T

/-- Run a sequence of operations, collecting the values returned by the
successful pops, in order. -/
def run [Inhabited T] (b : SpscRingbuffer T) :
    List (Op T) → SpscRingbuffer T × List T
  | [] => (b, [])
  | Op.push x :: ops => run (b.push x).2 ops
  | Op.pop :: ops =>
    let p := b.pop
    let rest := run p.2 ops
    (rest.1,
      match p.1 with
      | Except.ok v => v :: rest.2
      | Except.error _ => rest.2)

/-- The sequence respects availability: every `push` happens when
`write_available() > 0` (`is_full` is false) and every `pop` happens when
`read_available() > 0` (`is_empty` is false). -/
def availOk [Inhabited T] (b : SpscRingbuffer T) : List (Op T) → Bool
  | [] => true
  | Op.push x :: ops => !b.is_full && availOk (b.push x).2 ops
  | Op.pop :: ops => !b.is_empty && availOk b.pop.2 ops

/-- The values pushed by a sequence of operations, in order. -/
def pushedVals : List (Op T) → List T
  | [] => []
  | Op.push x :: ops => x :: pushedVals ops
  | Op.pop :: ops => pushedVals ops

/-- Conservation: the values already popped followed by the queue still in
the buffer are exactly the initial queue followed by the values pushed. -/
theorem run_fifo [Inhabited T] :
    ∀ (ops : List (Op T)) (b : SpscRingbuffer T), b.Inv →
      availOk b ops = true →
      (run b ops).2 ++ (run b ops).1.contents = b.contents ++ pushedVals ops := by
  intro ops
  induction ops with
  | nil =>
    intro b _ _
    simp [run, pushedVals]
  | cons op ops ih =>
    intro b hinv hav
    cases op with
    | push x =>
      simp only [availOk, Bool.and_eq_true, Bool.not_eq_true'] at hav
      obtain ⟨hnf, hav⟩ := hav
      have hpos : 0 < b.write_available := by
        simp only [is_full, beq_eq_false_iff_ne, ne_eq] at hnf
        omega
      obtain ⟨-, -, hcont, -, -, -⟩ := push_spec b x hinv hpos
      have hinv' := inv_push b x hinv
      have hrunp : b.run (Op.push x :: ops) = (b.push x).2.run ops := rfl
      rw [hrunp, ih (b.push x).2 hinv' hav, hcont]
      simp only [pushedVals, List.append_assoc, List.cons_append,
        List.nil_append]
    | pop =>
      simp only [availOk, Bool.and_eq_true, Bool.not_eq_true'] at hav
      obtain ⟨hne, hav⟩ := hav
      have hpos : 0 < b.read_available := by
        simp only [is_empty, beq_eq_false_iff_ne, ne_eq] at hne
        omega
      obtain ⟨h1, hcont, -, -, -, -⟩ := pop_spec b hinv hpos
      have hinv' := inv_pop b hinv
      have hrun : run b (Op.pop :: ops) =
          ((run b.pop.2 ops).1,
            b.buffer.getD b.read_index default :: (run b.pop.2 ops).2) := by
        simp only [run, h1]
      rw [hrun, hcont]
      simp only [pushedVals, List.cons_append]
      rw [ih b.pop.2 hinv' hav]

/-- A fresh buffer represents the empty queue. -/
theorem contents_new [Inhabited T] (c : Nat) : (new T c).contents = [] := by
  simp [contents, read_available, new]

/-- The persisted-state representation of the serialization adapter
(lib.rs lines 354-397): the serde derive on `SpscRingbuffer` (lib.rs lines
38-46) emits the backing array's contents in index order, the write cursor,
the read cursor, the boundary tag and the size, each as a plain field. -/
structure SerializedState (T : Type) where
  buffer : List T
  write_index : Nat
  read_index : Nat
  limit_kind : LimitKind
  size : Nat

/-- Serialization: snapshot the five fields (the `Serialize` impls for
`UnsafeVec` and `AtomicLimitKind` read the cell / the atomic and serialize
the plain value). -/
def serialize (b : SpscRingbuffer T) : SerializedState T :=
  { buffer := b.buffer
    write_index := b.write_index
    read_index := b.read_index
    limit_kind := b.limit_kind
    size := b.size }

/-- Deserialization: rebuild the buffer from the five persisted fields (the
`Deserialize` impls wrap the plain values back into the cell / the
atomic). -/
def deserialize (s : SerializedState T) : SpscRingbuffer T :=
  { buffer := s.buffer
    write_index := s.write_index
    read_index := s.read_index
    limit_kind := s.limit_kind
    size := s.size }

/-- The results of `n` successive `pop` calls. -/
def popList [Inhabited T] : Nat → SpscRingbuffer T → List (Except LoadErrorKind T)
  | 0, _ => []
  | n + 1, b => b.pop.1 :: popList n b.pop.2

/-- `write_available` recomputed from explicitly supplied cursor values, as
`is_full()` does from its own two atomic loads (lib.rs lines 89-103). -/
def write_available_at (size w r : Nat) (limit : LimitKind) : Nat :=
  if w = r then
    match limit with
    | LimitKind.Empty => size
    | LimitKind.Full => 0
  else if w < r then
    r - w
  else
    (size - w) + r

/-- `push` with its two loads of `read_index` made explicit: `rCheck` is
the value the `is_full()` call observes (lib.rs line 127, loading at line
91), `rWrite` the value the second, relaxed load observes (lib.rs line
132).  The slot write, the `next == read_index` tag decision and the
published cursor all use `rWrite`; only the fullness decision uses
`rCheck`.  `push` itself is the special case in which both loads return the
stored `read_index`. -/
def pushObserved (b : SpscRingbuffer T) (item : T) (rCheck rWrite : Nat) :
    Except StoreErrorKind Unit × SpscRingbuffer T :=
  if (write_available_at b.size b.write_index rCheck b.limit_kind == 0) then
    (Except.error StoreErrorKind.Full, b)
  else
    let write_index := b.write_index
    let read_index := rWrite
    let buffer := b.buffer.set write_index item
    let next_write_index := (write_index + 1) % b.size
    let limit_kind :=
      if next_write_index = read_index then LimitKind.Full else b.limit_kind
    (Except.ok (),
      { b with buffer := buffer, write_index := next_write_index,
               limit_kind := limit_kind })

end SpscRingbuffer

open SpscRingbuffer

/-- C3: `push` on any buffer with `write_available() == 0` returns the
`Full` error and leaves the whole state (storage, both cursors, boundary
tag) unchanged, hence also `read_available()` and `write_available()`. -/
theorem c3_push_full_no_mutation (b : SpscRingbuffer Nat) (item : Nat)
    (h : b.write_available = 0) :
    b.push item = (Except.error StoreErrorKind.Full, b) ∧
      (b.push item).2.read_available = b.read_available ∧
      (b.push item).2.write_available = b.write_available := by
  have hfull : b.is_full = true := by simp [is_full, h]
  refine ⟨?_, ?_, ?_⟩ <;> simp [push, hfull]

theorem c3_push_full_no_mutation_witness :
    ((new Nat 1).push 3).2.write_available = 0 ∧
      ((new Nat 1).push 3).2.push 4 =
        (Except.error StoreErrorKind.Full, ((new Nat 1).push 3).2) ∧
      (((new Nat 1).push 3).2.push 4).2.read_available =
        ((new Nat 1).push 3).2.read_available ∧
      (((new Nat 1).push 3).2.push 4).2.write_available =
        ((new Nat 1).push 3).2.write_available :=
  ⟨by decide, c3_push_full_no_mutation ((new Nat 1).push 3).2 4 (by decide)⟩

/-- C4: `pop` on any buffer with `read_available() == 0` returns the
`Empty` error and leaves the whole state (storage, both cursors, boundary
tag) unchanged, hence also `read_available()` and `write_available()`. -/
theorem c4_pop_empty_no_mutation (b : SpscRingbuffer Nat)
    (h : b.read_available = 0) :
    b.pop = (Except.error LoadErrorKind.Empty, b) ∧
      b.pop.2.read_available = b.read_available ∧
      b.pop.2.write_available = b.write_available := by
  have hemp : b.is_empty = true := by simp [is_empty, h]
  refine ⟨?_, ?_, ?_⟩ <;> simp [pop, hemp]

theorem c4_pop_empty_no_mutation_witness :
    (new Nat 1).read_available = 0 ∧
      (new Nat 1).pop = (Except.error LoadErrorKind.Empty, new Nat 1) ∧
      (new Nat 1).pop.2.read_available = (new Nat 1).read_available ∧
      (new Nat 1).pop.2.write_available = (new Nat 1).write_available :=
  ⟨by decide, c4_pop_empty_no_mutation (new Nat 1) (by decide)⟩

/-- C5: in every state reachable from `new capacity` by `push`/`pop`/`clear`,
`read_available()` and `write_available()` are in `[0, capacity]` and sum to
`capacity`; when `capacity ≥ 1`, `is_empty()` and `is_full()` are never both
true and both cursors stay in `[0, modulus)` (strategy A: modulus =
capacity). -/
theorem c5_reachable_invariants {T : Type} [Inhabited T] (c : Nat)
    (b : SpscRingbuffer T) (h : Reachable c b) :
    b.read_available + b.write_available = c ∧
      b.read_available ≤ c ∧ b.write_available ≤ c ∧
      (1 ≤ c →
        ¬(b.is_empty = true ∧ b.is_full = true) ∧
          b.write_index < c ∧ b.read_index < c) := by
  have hinv := reachable_inv h
  have hsz := reachable_size h
  have hsum := read_add_write_available b hinv
  rw [hsz] at hsum
  refine ⟨hsum, ?_, ?_, ?_⟩
  · have := read_available_le b hinv; omega
  · have := write_available_le b hinv; omega
  · intro hc
    obtain ⟨-, hcur⟩ := hinv
    rw [if_neg (by omega)] at hcur
    refine ⟨?_, by omega, by omega⟩
    rintro ⟨he, hf⟩
    simp only [is_empty, beq_iff_eq] at he
    simp only [is_full, beq_iff_eq] at hf
    omega

theorem c5_reachable_invariants_witness :
    Reachable 2 ((new Nat 2).push 5).2 ∧
      (((new Nat 2).push 5).2.read_available +
          ((new Nat 2).push 5).2.write_available = 2 ∧
        ((new Nat 2).push 5).2.read_available ≤ 2 ∧
        ((new Nat 2).push 5).2.write_available ≤ 2 ∧
        (1 ≤ 2 →
          ¬(((new Nat 2).push 5).2.is_empty = true ∧
              ((new Nat 2).push 5).2.is_full = true) ∧
            ((new Nat 2).push 5).2.write_index < 2 ∧
            ((new Nat 2).push 5).2.read_index < 2)) :=
  ⟨Reachable.push_step 5 Reachable.init,
    c5_reachable_invariants 2 ((new Nat 2).push 5).2
      (Reachable.push_step 5 Reachable.init)⟩

/-- Every state reachable from `new 0` is `new 0` itself: `push`, `pop` and
`clear` are all identities there, because the `Full`/`Empty` guards fire
before the `% size` arithmetic. -/
theorem reachable_zero_eq {T : Type} [Inhabited T] {b : SpscRingbuffer T}
    (h : Reachable 0 b) : b = new T 0 := by
  induction h with
  | init => rfl
  | push_step x _ ih => rw [ih]; rfl
  | pop_step _ ih => rw [ih]; rfl
  | clear_step _ ih => rw [ih]; rfl

/-- C10: on a buffer constructed with `new(0)`, and on every state reachable
from it, `push` always returns the `Full` error and `pop` always returns the
`Empty` error, with no state change; the `(index + 1) % size` computations
(which would panic in Rust with `size == 0`) sit behind those guards and are
never reached. -/
theorem c10_capacity_zero {T : Type} [Inhabited T] (b : SpscRingbuffer T)
    (h : Reachable 0 b) (x : T) :
    b.push x = (Except.error StoreErrorKind.Full, b) ∧
      b.pop = (Except.error LoadErrorKind.Empty, b) := by
  have hb := reachable_zero_eq h
  subst hb
  exact ⟨rfl, rfl⟩

theorem c10_capacity_zero_witness :
    Reachable 0 (new Nat 0) ∧
      ((new Nat 0).push 7 = (Except.error StoreErrorKind.Full, new Nat 0) ∧
        (new Nat 0).pop = (Except.error LoadErrorKind.Empty, new Nat 0)) :=
  ⟨Reachable.init, c10_capacity_zero (new Nat 0) Reachable.init 7⟩

/-- C6: immediately after `clear()`, on any buffer state, the buffer is
empty: `is_empty()` holds, `write_available()` is the full capacity,
`read_available()` is `0`, and both cursors and the boundary tag are in the
empty configuration. -/
theorem c6_clear_resets (b : SpscRingbuffer Nat) :
    b.clear.is_empty = true ∧
      b.clear.write_available = b.size ∧
      b.clear.read_available = 0 ∧
      b.clear.write_index = 0 ∧
      b.clear.read_index = 0 ∧
      b.clear.limit_kind = LimitKind.Empty := by
  refine ⟨?_, ?_, ?_, rfl, rfl, rfl⟩ <;>
    simp [clear, is_empty, read_available, write_available]

/-- C1: FIFO order.  For every sequence of pushes interleaved with pops that
respects availability (every push when `write_available() > 0`, every pop
when `read_available() > 0`), starting from `new capacity`, the values
returned by the pops (all of which succeed) are exactly the pushed values,
in the exact order they were pushed — including across cursor wraparound. -/
theorem c1_fifo_order {T : Type} [Inhabited T] (c : Nat) (ops : List (Op T))
    (h : availOk (new T c) ops = true) :
    (run (new T c) ops).2 =
      (pushedVals ops).take (run (new T c) ops).2.length := by
  have hmain := run_fifo ops (new T c) (inv_new c) h
  rw [contents_new, List.nil_append] at hmain
  calc (run (new T c) ops).2
      = ((run (new T c) ops).2 ++ (run (new T c) ops).1.contents).take
          (run (new T c) ops).2.length := (List.take_left _ _).symm
    _ = (pushedVals ops).take (run (new T c) ops).2.length := by rw [hmain]

theorem c1_fifo_order_witness :
    availOk (new Nat 2)
        [Op.push 10, Op.push 11, Op.pop, Op.pop, Op.push 20, Op.push 21,
          Op.pop, Op.pop] = true ∧
      (run (new Nat 2)
          [Op.push 10, Op.push 11, Op.pop, Op.pop, Op.push 20, Op.push 21,
            Op.pop, Op.pop]).2 =
        (pushedVals
            [Op.push 10, Op.push 11, Op.pop, Op.pop, Op.push 20, Op.push 21,
              Op.pop, Op.pop]).take
          (run (new Nat 2)
              [Op.push 10, Op.push 11, Op.pop, Op.pop, Op.push 20, Op.push 21,
                Op.pop, Op.pop]).2.length :=
  ⟨by decide, c1_fifo_order 2 _ (by decide)⟩

/-- C2: starting from `new c` and performing `n ≤ c` pushes with no pops,
all `n` pushes succeed, and afterwards `read_available() = n` and
`write_available() = c - n`. -/
theorem c2_fresh_pushes {T : Type} [Inhabited T] (c n : Nat) (xs : List T)
    (hn : n ≤ c) (hlen : xs.length = n) :
    (∀ res ∈ ((new T c).pushAll xs).2, res = Except.ok ()) ∧
      ((new T c).pushAll xs).1.read_available = n ∧
      ((new T c).pushAll xs).1.write_available = c - n := by
  have h0r : (new T c).read_available = 0 := by
    simp [read_available, new]
  have h0w : (new T c).write_available = c := by
    simp [write_available, new]
  obtain ⟨hok, hra, hinv, hsz⟩ := pushAll_spec xs (new T c) (inv_new c)
    (by rw [h0w, hlen]; exact hn)
  have hsum := read_add_write_available _ hinv
  have hszc : ((new T c).pushAll xs).1.size = c := by rw [hsz]; rfl
  rw [h0r, hlen] at hra
  exact ⟨hok, by omega, by omega⟩

theorem c2_fresh_pushes_witness :
    2 ≤ 3 ∧ ([4, 5] : List Nat).length = 2 ∧
      ((∀ res ∈ ((new Nat 3).pushAll [4, 5]).2, res = Except.ok ()) ∧
        ((new Nat 3).pushAll [4, 5]).1.read_available = 2 ∧
        ((new Nat 3).pushAll [4, 5]).1.write_available = 3 - 2) :=
  ⟨by decide, by decide, c2_fresh_pushes 3 2 [4, 5] (by decide) (by decide)⟩

/-- C8: frame property of a successful `push`: the result is `Ok(())`, the
read cursor and the size are untouched, the write cursor advances to
`(write_cursor + 1) mod modulus`, the slot at the old write cursor now
holds `item`, every other storage slot is unchanged, and the boundary tag
is set to `Full` exactly when the advanced cursor meets `read_cursor`. -/
theorem c8_push_frame {T : Type} [Inhabited T] (b : SpscRingbuffer T) (x : T)
    (hinv : b.Inv) (h : 0 < b.write_available) :
    (b.push x).1 = Except.ok () ∧
      (b.push x).2.read_index = b.read_index ∧
      (b.push x).2.size = b.size ∧
      (b.push x).2.write_index = (b.write_index + 1) % b.size ∧
      (b.push x).2.buffer.getD b.write_index default = x ∧
      (∀ j, j ≠ b.write_index →
        (b.push x).2.buffer.getD j default = b.buffer.getD j default) ∧
      (b.push x).2.limit_kind =
        (if (b.write_index + 1) % b.size = b.read_index then LimitKind.Full
         else b.limit_kind) := by
  have hs : 0 < b.size := size_pos_of_write_available b hinv h
  obtain ⟨hlen, hcur⟩ := hinv
  rw [if_neg (by omega)] at hcur
  have hnotfull : b.is_full = false := by
    simp only [is_full, beq_eq_false_iff_ne, ne_eq]
    omega
  have hstep : b.push x =
      (Except.ok (),
        { b with buffer := b.buffer.set b.write_index x,
                 write_index := (b.write_index + 1) % b.size,
                 limit_kind :=
                   if (b.write_index + 1) % b.size = b.read_index then
                     LimitKind.Full
                   else b.limit_kind }) := by
    unfold push
    rw [hnotfull]
    rfl
  refine ⟨by rw [hstep], by rw [hstep], by rw [hstep], by rw [hstep], ?_, ?_,
    by rw [hstep]⟩
  · rw [hstep]
    show (b.buffer.set b.write_index x).getD b.write_index default = x
    simp only [List.getD_eq_getElem?_getD]
    rw [List.getElem?_set_self (by omega)]
    rfl
  · intro j hj
    rw [hstep]
    show (b.buffer.set b.write_index x).getD j default = b.buffer.getD j default
    simp only [List.getD_eq_getElem?_getD]
    rw [List.getElem?_set_ne (fun hx => hj hx.symm)]

theorem c8_push_frame_witness :
    (new Nat 2).Inv ∧ 0 < (new Nat 2).write_available ∧
      (((new Nat 2).push 9).1 = Except.ok () ∧
        ((new Nat 2).push 9).2.read_index = (new Nat 2).read_index ∧
        ((new Nat 2).push 9).2.size = (new Nat 2).size ∧
        ((new Nat 2).push 9).2.write_index =
          ((new Nat 2).write_index + 1) % (new Nat 2).size ∧
        ((new Nat 2).push 9).2.buffer.getD (new Nat 2).write_index default =
          9 ∧
        (∀ j, j ≠ (new Nat 2).write_index →
          ((new Nat 2).push 9).2.buffer.getD j default =
            (new Nat 2).buffer.getD j default) ∧
        ((new Nat 2).push 9).2.limit_kind =
          (if ((new Nat 2).write_index + 1) % (new Nat 2).size =
              (new Nat 2).read_index then LimitKind.Full
           else (new Nat 2).limit_kind)) :=
  ⟨⟨by decide, by decide⟩, by decide,
    c8_push_frame (new Nat 2) 9 ⟨by decide, by decide⟩ (by decide)⟩

/-- C9: serializing the persisted-state representation (backing array
contents in index order, write cursor, read cursor, boundary tag, size) and
deserializing it reconstructs an identical buffer, hence one with identical
occupancy and identical results for every subsequent sequence of pops. -/
theorem c9_serialization_roundtrip {T : Type} [Inhabited T]
    (b : SpscRingbuffer T) :
    deserialize (serialize b) = b ∧
      (deserialize (serialize b)).read_available = b.read_available ∧
      (deserialize (serialize b)).write_available = b.write_available ∧
      ∀ n, popList n (deserialize (serialize b)) = popList n b :=
  ⟨rfl, rfl, rfl, fun _ => rfl⟩

/-- C7 (claim refuted by the code): `push` does NOT reuse the cursor values
loaded by its fullness check.  `is_full()` (lib.rs line 127) loads both
cursors, and lines 131-132 then load both cursors again; the slot write,
the `next == read_index` tag decision and the published cursor use the
re-loaded `read_index`.  In `pushObserved` the two loads are explicit
(`rCheck` for the check, `rWrite` for the write path); `push` is the
special case where both agree.  On the state
`{buffer = [0,0], write_index = 1, read_index = 0, tag = Empty, size = 2}`
(reachable by one push on `new 2`), the outcome depends on the re-loaded
value: if a concurrent pop moves `read_index` from 0 to 1 between the two
loads, the tag decision differs from the one the checked value would have
produced — so the check and the write do not use the same loaded values. -/
theorem c7_push_rereads_read_cursor :
    (SpscRingbuffer.push
        ({ buffer := [0, 0], write_index := 1, read_index := 0,
           limit_kind := LimitKind.Empty, size := 2 } : SpscRingbuffer Nat) 7 =
      pushObserved
        ({ buffer := [0, 0], write_index := 1, read_index := 0,
           limit_kind := LimitKind.Empty, size := 2 } : SpscRingbuffer Nat)
        7 0 0) ∧
      (pushObserved
          ({ buffer := [0, 0], write_index := 1, read_index := 0,
             limit_kind := LimitKind.Empty, size := 2 } : SpscRingbuffer Nat)
          7 0 1).2.limit_kind = LimitKind.Empty ∧
      (pushObserved
          ({ buffer := [0, 0], write_index := 1, read_index := 0,
             limit_kind := LimitKind.Empty, size := 2 } : SpscRingbuffer Nat)
          7 0 0).2.limit_kind = LimitKind.Full ∧
      (pushObserved
          ({ buffer := [0, 0], write_index := 1, read_index := 0,
             limit_kind := LimitKind.Empty, size := 2 } : SpscRingbuffer Nat)
          7 0 1).2 ≠
        (pushObserved
            ({ buffer := [0, 0], write_index := 1, read_index := 0,
               limit_kind := LimitKind.Empty, size := 2 } : SpscRingbuffer Nat)
            7 0 0).2 :=
  ⟨rfl, rfl, rfl, by decide⟩
